import Mathlib

/-!
Shallow embedding of the rule-matching and response-synthesis engine of the
`http-mock-server` repository (files `internal/handler/mockHandler.go` and
`internal/config/config.go`), together with proofs about the claims of its
design specification.

External collaborators used by the handler (Go's `strings`, `net/textproto`
header canonicalization, `regexp`, `encoding/json`, `math/rand`) are modelled
by executable Lean functions that follow the documented behaviour of those
packages on the value domain exercised by the configuration.
-/

namespace Mock

/-- Models Go `strings.ToUpper` on one character (ASCII letter case only,
which is all the handler compares: HTTP method verbs). -/
def charToUpper (c : Char) : Char :=
  if 97 ≤ c.toNat ∧ c.toNat ≤ 122 then Char.ofNat (c.toNat - 32) else c

/-- Models Go `strings.ToLower` on one character (ASCII letter case only). -/
def charToLower (c : Char) : Char :=
  if 65 ≤ c.toNat ∧ c.toNat ≤ 90 then Char.ofNat (c.toNat + 32) else c

/-- Models Go `strings.ToUpper` (`method := strings.ToUpper(r.Method)` in
`findMatchingRule`, and `rule.Method = strings.ToUpper(rule.Method)` in
`setDefaults`). -/
def stringsToUpper (s : String) : String := String.mk (s.data.map charToUpper)

/-- Helper for `canonicalMIMEHeaderKey`: the flag says whether the next
character starts a hyphen-separated token and is upper-cased. -/
def canonicalKeyAux : Bool → List Char → List Char
  | _, [] => []
  | up, c :: cs =>
    (if up then charToUpper c else charToLower c) :: canonicalKeyAux (c == '-') cs

/-- Models Go `textproto.CanonicalMIMEHeaderKey`, used by `http.Header.Get`
and `http.Header.Set`: the first letter and every letter after a hyphen is
upper-cased, the rest lower-cased. -/
def canonicalMIMEHeaderKey (s : String) : String :=
  String.mk (canonicalKeyAux true s.data)

/-- Regular-expression abstract syntax, modelling the fragment of Go's
`regexp` (RE2) syntax used by rule patterns: literals, `.`, character
classes, grouping, alternation and the `*`, `+`, `?` repetition operators. -/
inductive RE where
  | eps : RE
  | fail : RE
  | chr : Char → RE
  | dot : RE
  | cls : Bool → List (Char × Char) → RE
  | seq : RE → RE → RE
  | alt : RE → RE → RE
  | star : RE → RE
deriving DecidableEq, Repr

/-- Does the regular expression accept the empty string? -/
def RE.nullable : RE → Bool
  | .eps => true
  | .fail => false
  | .chr _ => false
  | .dot => false
  | .cls _ _ => false
  | .seq a b => a.nullable && b.nullable
  | .alt a b => a.nullable || b.nullable
  | .star _ => true

/-- Character-class membership: is `c` inside one of the ranges? -/
def rangesMatch (rs : List (Char × Char)) (c : Char) : Bool :=
  rs.any fun p => decide (p.1 ≤ c) && decide (c ≤ p.2)

/-- Brzozowski derivative of a regular expression by one character. `.`
excludes newline, as in RE2 without the `s` flag. -/
def RE.deriv : RE → Char → RE
  | .eps, _ => .fail
  | .fail, _ => .fail
  | .chr c, x => if x = c then .eps else .fail
  | .dot, x => if x = '\n' then .fail else .eps
  | .cls neg rs, x => if rangesMatch rs x != neg then .eps else .fail
  | .seq a b, x =>
    if a.nullable then .alt (.seq (a.deriv x) b) (b.deriv x) else .seq (a.deriv x) b
  | .alt a b, x => .alt (a.deriv x) (b.deriv x)
  | .star a, x => .seq (a.deriv x) (.star a)

/-- Does some prefix of the character list match the regular expression? -/
def RE.matchHere : RE → List Char → Bool
  | r, [] => r.nullable
  | r, c :: cs => r.nullable || (r.deriv c).matchHere cs

/-- Does the regular expression match starting at some position? This is the
unanchored semantics of Go's `Regexp.MatchString` / `Regexp.Match`. -/
def RE.matchSomewhere : RE → List Char → Bool
  | r, [] => r.matchHere []
  | r, s@(_ :: cs) => r.matchHere s || r.matchSomewhere cs

/-- Models `pattern.MatchString(value)` for a compiled pattern. -/
def RE.matchString (r : RE) (s : String) : Bool := r.matchSomewhere s.data

/-- Character-class body parser: items until the closing `]`; an unterminated
class (as in `"[invalid(regex"`) is a syntax error, giving `none`. -/
def parseClassItems : List Char → List (Char × Char) → Option (List (Char × Char) × List Char)
  | [], _ => none
  | ']' :: rest, acc => some (acc, rest)
  | '\\' :: c :: rest, acc => parseClassItems rest (acc ++ [(c, c)])
  | ['\\'], _ => none
  | c :: '-' :: ']' :: rest, acc => some (acc ++ [(c, c), ('-', '-')], rest)
  | c :: '-' :: d :: rest, acc => parseClassItems rest (acc ++ [(c, d)])
  | c :: rest, acc => parseClassItems rest (acc ++ [(c, c)])

/-- Escape sequences: the common perl classes, any other character escapes to
itself. -/
def escapeAtom (c : Char) : RE :=
  if c = 'd' then .cls false [('0', '9')]
  else if c = 'D' then .cls true [('0', '9')]
  else if c = 'w' then .cls false [('0', '9'), ('a', 'z'), ('A', 'Z'), ('_', '_')]
  else if c = 's' then .cls false [(' ', ' '), ('\t', '\t'), ('\n', '\n'), ('\r', '\r')]
  else .chr c

/-- Apply trailing repetition operators to a parsed atom. -/
def repSuffix : RE → List Char → RE × List Char
  | r, '*' :: rest => repSuffix (RE.star r) rest
  | r, '+' :: rest => repSuffix (RE.seq r (RE.star r)) rest
  | r, '?' :: rest => repSuffix (RE.alt r RE.eps) rest
  | r, rest => (r, rest)

mutual

/-- Parse an alternation (`a|b`). Fuelled recursive descent. -/
def parseAlternation : Nat → List Char → Option (RE × List Char)
  | 0, _ => none
  | fuel + 1, cs => do
    let (r, rest) ← parseSequence fuel cs
    match rest with
    | '|' :: rest2 => do
      let (r2, rest3) ← parseAlternation fuel rest2
      pure (RE.alt r r2, rest3)
    | _ => pure (r, rest)

/-- Parse a concatenation of repeated atoms. -/
def parseSequence : Nat → List Char → Option (RE × List Char)
  | 0, _ => none
  | fuel + 1, cs =>
    match cs with
    | [] => some (RE.eps, [])
    | ')' :: _ => some (RE.eps, cs)
    | '|' :: _ => some (RE.eps, cs)
    | _ => do
      let (r, rest) ← parseRepetition fuel cs
      let (r2, rest2) ← parseSequence fuel rest
      pure (RE.seq r r2, rest2)

/-- Parse one atom with its repetition suffix. -/
def parseRepetition : Nat → List Char → Option (RE × List Char)
  | 0, _ => none
  | fuel + 1, cs => do
    let (r, rest) ← parseAtom fuel cs
    pure (repSuffix r rest)

/-- Parse one atom: group, class, escape, `.`, or a literal character. A
repetition operator with no operand, a stray `)` and a dangling `\` are
syntax errors. -/
def parseAtom : Nat → List Char → Option (RE × List Char)
  | 0, _ => none
  | fuel + 1, cs =>
    match cs with
    | [] => none
    | '(' :: rest => do
      let (r, rest2) ← parseAlternation fuel rest
      match rest2 with
      | ')' :: rest3 => pure (r, rest3)
      | _ => none
    | '[' :: '^' :: rest => do
      let (rs, rest2) ← parseClassItems rest []
      pure (RE.cls true rs, rest2)
    | '[' :: rest => do
      let (rs, rest2) ← parseClassItems rest []
      pure (RE.cls false rs, rest2)
    | '\\' :: c :: rest => some (escapeAtom c, rest)
    | ['\\'] => none
    | '.' :: rest => some (RE.dot, rest)
    | '*' :: _ => none
    | '+' :: _ => none
    | '?' :: _ => none
    | ')' :: _ => none
    | '|' :: _ => none
    | c :: rest => some (RE.chr c, rest)

end

/-- Models Go `regexp.Compile`: `some` a compiled pattern on success, `none`
on a syntax error (the `err != nil` branch in the matchers). -/
def regexpCompile (pat : String) : Option RE :=
  match parseAlternation (8 * pat.length + 8) pat.toList with
  | some (r, []) => some r
  | _ => none

/-- The `interface{}` value carried by `ResponseSpec.Body` after YAML
decoding: a plain Go string or a structured value. -/
inductive Json where
  | str : String → Json
  | num : Int → Json
  | bool : Bool → Json
  | null : Json
  | arr : List Json → Json
  | obj : List (String × Json) → Json
deriving Repr

/-- JSON escaping of one character in a string literal (quote and
backslash; sufficient for the modelled value domain). -/
def escapeJsonChar (c : Char) : String :=
  if c = '"' then "\\\"" else if c = '\\' then "\\\\" else String.mk [c]

/-- JSON string literal serialization. -/
def jsonStringLit (s : String) : String :=
  "\"" ++ String.join (s.data.map escapeJsonChar) ++ "\""

mutual

/-- Models Go `json.Marshal` on the modelled value domain (on which it
never returns an error). -/
def jsonMarshal : Json → String
  | .str s => jsonStringLit s
  | .num n => toString n
  | .bool b => if b then "true" else "false"
  | .null => "null"
  | .arr xs => "[" ++ jsonMarshalList xs ++ "]"
  | .obj fs => "\x7b" ++ jsonMarshalFields fs ++ "\x7d"

/-- Array elements, comma-separated. -/
def jsonMarshalList : List Json → String
  | [] => ""
  | [x] => jsonMarshal x
  | x :: y :: xs => jsonMarshal x ++ "," ++ jsonMarshalList (y :: xs)

/-- Object fields, comma-separated. -/
def jsonMarshalFields : List (String × Json) → String
  | [] => ""
  | [(k, v)] => jsonStringLit k ++ ":" ++ jsonMarshal v
  | (k, v) :: y :: xs => jsonStringLit k ++ ":" ++ jsonMarshal v ++ "," ++ jsonMarshalFields (y :: xs)

end

/-- `config.ResponseDelay`: min/max delay in milliseconds. The Go fields
are `int` (64-bit, wrapping); they are carried here as unbounded `Int`,
and `int64Wrap` / `calculateDelayGo` below make the 64-bit wrap-around of
the delay arithmetic explicit where it matters. -/
structure ResponseDelay where
  min : Int
  max : Int
deriving DecidableEq, Repr

/-- `config.ResponseSpec`: the response to return when a rule matches. -/
structure ResponseSpec where
  body : Option Json
  statusCode : Int
  headers : List (String × String)
deriving Repr

/-- `config.RequestRule`: a single mock request matching rule. Go maps
become association lists (the matchers are order-independent). -/
structure RequestRule where
  path : String
  headers : List (String × String)
  queryParams : List (String × String)
  method : String
  response : ResponseSpec
  body : String
  responseDelay : Option ResponseDelay
deriving Repr

/-- `config.ServerConfig`. -/
structure ServerConfig where
  port : Nat
deriving DecidableEq, Repr

/-- `config.Config`: server settings plus the ordered rule list. -/
structure Config where
  server : ServerConfig
  requests : List RequestRule
deriving Repr

/-- The per-rule part of `Config.setDefaults`: method defaults to GET and is
upper-cased; status code 0 defaults to 200. -/
def defaultRule (rule : RequestRule) : RequestRule :=
  let rule1 :=
    { rule with method := stringsToUpper (if rule.method = "" then "GET" else rule.method) }
  if rule1.response.statusCode = 0 then
    { rule1 with response := { rule1.response with statusCode := 200 } }
  else rule1

/-- `Config.setDefaults` from `internal/config/config.go`. -/
def Config.setDefaults (c : Config) : Config :=
  { server := { port := if c.server.port = 0 then 8080 else c.server.port },
    requests := c.requests.map defaultRule }

/-- The incoming request as the handler sees it: `http.Request` restricted
to the fields the handler reads. Header and query collections are
name-to-values maps (`http.Header`, `url.Values`). `cancelledDuringDelay`
models `r.Context().Done()` becoming ready while the handler is suspended
in the delay wait, i.e. strictly before the delay timer fires. -/
structure Request where
  method : String
  path : String
  headers : List (String × List String)
  query : List (String × List String)
  body : String
  cancelledDuringDelay : Bool
deriving DecidableEq, Repr

/-- Models `http.Header.Get`: canonicalize the name, return the first value,
or the empty string when the header is absent. -/
def headerGet (hs : List (String × List String)) (name : String) : String :=
  match hs.lookup (canonicalMIMEHeaderKey name) with
  | some (v :: _) => v
  | _ => ""

/-- Models `url.Values.Get`: exact key lookup, first value, empty string
when the parameter is absent. -/
def valuesGet (vs : List (String × List String)) (name : String) : String :=
  match vs.lookup name with
  | some (v :: _) => v
  | _ => ""

/-- `matchesHeaders` from `mockHandler.go`: empty pattern map matches
anything; otherwise every entry must match its request value, where an
invalid regex degrades to exact string equality. -/
def matchesHeaders (ruleHeaders : List (String × String))
    (requestHeaders : List (String × List String)) : Bool :=
  if ruleHeaders.length = 0 then true
  else ruleHeaders.all fun entry =>
    let requestValue := headerGet requestHeaders entry.1
    match regexpCompile entry.2 with
    | none => requestValue == entry.2
    | some pattern => pattern.matchString requestValue

/-- `matchesQueryParams` from `mockHandler.go`: same contract as
`matchesHeaders` over the decoded query values. -/
def matchesQueryParams (ruleParams : List (String × String))
    (requestParams : List (String × List String)) : Bool :=
  if ruleParams.length = 0 then true
  else ruleParams.all fun entry =>
    let requestValue := valuesGet requestParams entry.1
    match regexpCompile entry.2 with
    | none => requestValue == entry.2
    | some pattern => pattern.matchString requestValue

/-- `matchesBody` from `mockHandler.go`: empty pattern matches anything;
an invalid regex is a non-match (no exact-string fallback); otherwise an
unanchored match against the buffered body bytes. -/
def matchesBody (ruleBody : String) (r : Request) : Bool :=
  if ruleBody == "" then true
  else
    match regexpCompile ruleBody with
    | none => false
    | some pattern => pattern.matchString r.body

/-- The method check of the `findMatchingRule` loop: the stored rule method
compared against `method := strings.ToUpper(r.Method)`. -/
def methodCondition (rule : RequestRule) (r : Request) : Bool :=
  rule.method == stringsToUpper r.method

/-- The body of the `findMatchingRule` loop: all five conditions that a rule
must pass (each `continue` in the source negates one of them). -/
def ruleSatisfies (rule : RequestRule) (r : Request) : Bool :=
  rule.path == r.path &&
    methodCondition rule r &&
    matchesHeaders rule.headers r.headers &&
    matchesQueryParams rule.queryParams r.query &&
    matchesBody rule.body r

/-- `findMatchingRule` from `mockHandler.go`: first satisfying rule in
declaration order, `nil` (`none`) when no rule matches. -/
def findMatchingRule : List RequestRule → Request → Option RequestRule
  | [], _ => none
  | rule :: rest, r =>
    if ruleSatisfies rule r then some rule else findMatchingRule rest r

/-- Models `math/rand.Rand.Intn`: given the draw oracle `o` (the shared,
mutex-guarded generator), `Intn n` returns a value in `[0, n)`; it panics
when `n ≤ 0`, modelled as `none`. -/
def randIntn (o : Nat → Nat) (n : Int) : Option Int :=
  if n ≤ 0 then none else some (o n.toNat : Nat)

/-- `calculateDelay` from `mockHandler.go`, in milliseconds: `min`, plus a
random draw from `[0, max-min+1)` when `max > min`. `none` models a panic
of the underlying `Intn`. The arithmetic is taken in unbounded `Int`, which
coincides with Go's `int64` on validated configurations (where
`0 ≤ min ≤ max ≤ 10000`, see `calculateDelayGo_eq_calculateDelay`);
`calculateDelayGo` below is the faithful model with 64-bit wrap-around for
arbitrary, unvalidated pairs. -/
def calculateDelay (o : Nat → Nat) (delay : ResponseDelay) : Option Int :=
  if delay.max > delay.min then
    (randIntn o (delay.max - delay.min + 1)).map fun k => delay.min + k
  else some delay.min

/-- Two's-complement wrap-around of Go's signed 64-bit integer arithmetic
(9223372036854775808 = 2^63 and 18446744073709551616 = 2^64). -/
def int64Wrap (n : Int) : Int :=
  (n + 9223372036854775808) % 18446744073709551616 - 9223372036854775808

/-- `calculateDelay` with Go's wrapping `int64` arithmetic made explicit:
each `-` and `+` of `ms = delay.Min + h.rand.Intn(delay.Max-delay.Min+1)`
wraps at 64 bits, so for extreme pairs with `Max > Min` the argument of
`Intn` can wrap nonpositive and `Intn` panics (`none`). -/
def calculateDelayGo (o : Nat → Nat) (delay : ResponseDelay) : Option Int :=
  if delay.max > delay.min then
    (randIntn o (int64Wrap (int64Wrap (delay.max - delay.min) + 1))).map fun k =>
      int64Wrap (delay.min + k)
  else some delay.min

/-- `writeBody` from `mockHandler.go`: a string body is written verbatim,
any other value is JSON-marshalled. -/
def writeBody : Json → String
  | .str v => v
  | v => jsonMarshal v

/-- What the handler wrote to the `http.ResponseWriter`. -/
structure Response where
  statusCode : Int
  headers : List (String × String)
  body : String
deriving DecidableEq, Repr

/-- Models `http.Header.Set`: replace the value under the canonical key, or
append it. -/
def headerSet (hs : List (String × String)) (key value : String) : List (String × String) :=
  let ck := canonicalMIMEHeaderKey key
  if hs.any fun p => p.1 == ck then
    hs.map fun p => if p.1 == ck then (ck, value) else p
  else hs ++ [(ck, value)]

/-- The `w.Header().Set` loop of `writeResponse` over the rule's response
headers. -/
def setHeaders (ruleHeaders : List (String × String)) : List (String × String) :=
  ruleHeaders.foldl (fun acc p => headerSet acc p.1 p.2) []

/-- Terminal outcome of one request: a runtime panic, a response abandoned
on cancellation (nothing written at all), or a written response together
with the applied delay in milliseconds. -/
inductive Outcome where
  | panicked : Outcome
  | abandoned : Outcome
  | wrote : Response → Int → Outcome
deriving DecidableEq, Repr

/-- The response synthesized from a matched rule: configured headers set,
configured status code, body bytes via `writeBody` (none when `Body` is
`nil`). -/
def mkResponse (rule : RequestRule) : Response :=
  { statusCode := rule.response.statusCode,
    headers := setHeaders rule.response.headers,
    body :=
      match rule.response.body with
      | none => ""
      | some b => writeBody b }

/-- `writeResponse` from `mockHandler.go`: when a delay is configured, the
duration is computed and the wait races `time.After` against
`r.Context().Done()`; if the cancellation signal fires during the wait the
handler returns without writing. Otherwise headers, status and body are
written. -/
def writeResponse (o : Nat → Nat) (r : Request) (rule : RequestRule) : Outcome :=
  match rule.responseDelay with
  | some delay =>
    match calculateDelay o delay with
    | none => .panicked
    | some ms =>
      if r.cancelledDuringDelay then .abandoned
      else .wrote (mkResponse rule) ms
  | none => .wrote (mkResponse rule) 0

/-- Models Go `http.NotFound` (via `http.Error`): status 404, plain-text
headers, and the fixed body line. -/
def notFoundResponse : Response :=
  { statusCode := 404,
    headers := [("Content-Type", "text/plain; charset=utf-8"),
                ("X-Content-Type-Options", "nosniff")],
    body := "404 page not found\n" }

/-- `ServeHTTP` from `mockHandler.go`: select a rule, else reply not-found;
on a match, synthesize the response. -/
def serveHTTP (o : Nat → Nat) (cfg : Config) (r : Request) : Outcome :=
  match findMatchingRule cfg.requests r with
  | none => .wrote notFoundResponse 0
  | some rule => writeResponse o r rule

/-! Concrete configurations and requests, used to evaluate the theorems on
explicit inputs. They mirror the example rules of the repository's README
and tests. -/

/-- The `/ping` rule of the specification's end-to-end example. -/
def pingRule : RequestRule :=
  { path := "/ping", headers := [], queryParams := [], method := "GET",
    response := { body := some (.str "pong"), statusCode := 200, headers := [] },
    body := "", responseDelay := none }

/-- A configuration holding only the `/ping` rule. -/
def pingConfig : Config := { server := { port := 8080 }, requests := [pingRule] }

/-- A GET request for the unconfigured path `/unknown`. -/
def reqUnknown : Request :=
  { method := "GET", path := "/unknown", headers := [], query := [], body := "",
    cancelledDuringDelay := false }

/-- First of two rules that both match a GET on `/dup`. -/
def dupRuleA : RequestRule :=
  { path := "/dup", headers := [], queryParams := [], method := "GET",
    response := { body := some (.str "first"), statusCode := 200, headers := [] },
    body := "", responseDelay := none }

/-- Second of two rules that both match a GET on `/dup`. -/
def dupRuleB : RequestRule :=
  { path := "/dup", headers := [], queryParams := [], method := "GET",
    response := { body := some (.str "second"), statusCode := 201, headers := [] },
    body := "", responseDelay := none }

/-- A GET request on `/dup`, satisfying both `dupRuleA` and `dupRuleB`. -/
def dupReq : Request :=
  { method := "GET", path := "/dup", headers := [], query := [], body := "",
    cancelledDuringDelay := false }

/-- A rule written with a lower-case method, as a configuration file may
spell it before `setDefaults` upper-cases it. -/
def lowerMethodRule : RequestRule :=
  { path := "/m", headers := [], queryParams := [], method := "get",
    response := { body := none, statusCode := 0, headers := [] },
    body := "", responseDelay := none }

/-- A configuration holding only `lowerMethodRule`, before defaulting. -/
def lowerMethodConfig : Config := { server := { port := 0 }, requests := [lowerMethodRule] }

/-- A request whose method is spelled in mixed case. -/
def mixedCaseReq : Request :=
  { method := "GeT", path := "/m", headers := [], query := [], body := "",
    cancelledDuringDelay := false }

/-- A rule answering with a structured (non-string) body value. -/
def structuredRule : RequestRule :=
  { path := "/json", headers := [], queryParams := [], method := "GET",
    response := { body := some (.obj [("message", .str "ok")]), statusCode := 200,
                  headers := [("Content-Type", "application/json")] },
    body := "", responseDelay := none }

/-- A plain GET request on `/json`, not cancelled. -/
def jsonReq : Request :=
  { method := "GET", path := "/json", headers := [], query := [], body := "",
    cancelledDuringDelay := false }

/-- A rule with a configured fixed 100 ms response delay. -/
def delayedRule : RequestRule :=
  { path := "/slow", headers := [], queryParams := [], method := "GET",
    response := { body := some (.str "late"), statusCode := 200, headers := [] },
    body := "", responseDelay := some { min := 100, max := 100 } }

/-- A GET request on `/slow` whose context is cancelled while the handler
waits out the delay. -/
def cancelledReq : Request :=
  { method := "GET", path := "/slow", headers := [], query := [], body := "",
    cancelledDuringDelay := true }

/-! ### Auxiliary lemmas -/

theorem charToUpper_toNat (c : Char) (h : 97 ≤ c.toNat ∧ c.toNat ≤ 122) :
    (charToUpper c).toNat = c.toNat - 32 := by
  have hv : (c.toNat - 32).isValidChar := Or.inl (by omega)
  simp only [charToUpper, if_pos h, Char.ofNat, hv, dif_pos]
  rfl

theorem charToUpper_eq_self (c : Char) (h : ¬ (97 ≤ c.toNat ∧ c.toNat ≤ 122)) :
    charToUpper c = c := by
  simp only [charToUpper, if_neg h]

theorem charToUpper_charToUpper (c : Char) :
    charToUpper (charToUpper c) = charToUpper c := by
  by_cases h : 97 ≤ c.toNat ∧ c.toNat ≤ 122
  · have ht := charToUpper_toNat c h
    exact charToUpper_eq_self (charToUpper c) (by omega)
  · rw [charToUpper_eq_self c h]
    exact charToUpper_eq_self c h

theorem stringsToUpper_idem (s : String) :
    stringsToUpper (stringsToUpper s) = stringsToUpper s := by
  unfold stringsToUpper
  apply congrArg String.mk
  simp only [String.data]
  rw [List.map_map]
  exact List.map_congr_left fun a _ => charToUpper_charToUpper a

theorem RE.matchHere_of_nullable (r : RE) (h : r.nullable = true) (s : List Char) :
    r.matchHere s = true := by
  cases s <;> simp [RE.matchHere, h]

theorem RE.matchSomewhere_of_nullable (r : RE) (h : r.nullable = true) (s : List Char) :
    r.matchSomewhere s = true := by
  cases s <;> simp [RE.matchSomewhere, RE.matchHere_of_nullable r h]

theorem RE.matchString_of_nullable (r : RE) (h : r.nullable = true) (s : String) :
    r.matchString s = true :=
  RE.matchSomewhere_of_nullable r h s.data

/-- Closed form of `calculateDelay`: the `Intn` argument is positive whenever
the draw happens, so the panic case of `randIntn` is unreachable. -/
theorem calculateDelay_spec (o : Nat → Nat) (d : ResponseDelay) :
    calculateDelay o d =
      some (if d.max > d.min then d.min + (o (d.max - d.min + 1).toNat : Nat) else d.min) := by
  unfold calculateDelay randIntn
  by_cases h : d.max > d.min
  · have h2 : ¬ (d.max - d.min + 1 ≤ 0) := by omega
    simp [h, h2]
  · simp [h]

/-- On delay pairs that pass the configuration validation
(`0 ≤ min ≤ max ≤ 10000`) and with a draw oracle bounded like `Intn`,
the faithful wrapping model agrees with `calculateDelay`: no arithmetic
step can leave the int64 range there. -/
theorem calculateDelayGo_eq_calculateDelay (o : Nat → Nat) (d : ResponseDelay)
    (ho : ∀ n, 0 < n → o n < n) (h0 : 0 ≤ d.min) (h1 : d.min ≤ d.max)
    (h2 : d.max ≤ 10000) :
    calculateDelayGo o d = calculateDelay o d := by
  unfold calculateDelayGo calculateDelay randIntn
  by_cases h : d.max > d.min
  · have e1 : int64Wrap (d.max - d.min) = d.max - d.min := by
      unfold int64Wrap
      omega
    rw [if_pos h, if_pos h, e1]
    have e2 : int64Wrap (d.max - d.min + 1) = d.max - d.min + 1 := by
      unfold int64Wrap
      omega
    rw [e2]
    have hn : ¬ (d.max - d.min + 1 ≤ 0) := by omega
    rw [if_neg hn]
    have hk := ho (d.max - d.min + 1).toNat (by omega)
    simp only [Option.map_some']
    congr 1
    unfold int64Wrap
    omega
  · rw [if_neg h, if_neg h]

/-! ### Claim theorems -/

/-- C3: a header or query-parameter entry whose pattern does not compile as
a regular expression matches a request value exactly when the value equals
the literal pattern text; the pattern `"[invalid(regex"` is such a
pattern. -/
theorem invalidPatternExactMatch (name pat : String)
    (hdrs qs : List (String × List String)) (h : regexpCompile pat = none) :
    matchesHeaders [(name, pat)] hdrs = (headerGet hdrs name == pat) ∧
      matchesQueryParams [(name, pat)] qs = (valuesGet qs name == pat) ∧
      regexpCompile "[invalid(regex" = none := by
  refine ⟨?_, ?_, by rfl⟩
  · simp [matchesHeaders, h]
  · simp [matchesQueryParams, h]

theorem invalidPatternExactMatch_witness :
    (matchesHeaders [("X-Token", "[invalid(regex")] [("X-Token", ["[invalid(regex"])] =
        (headerGet [("X-Token", ["[invalid(regex"])] "X-Token" == "[invalid(regex")) ∧
      (matchesQueryParams [("X-Token", "[invalid(regex")] [("X-Token", ["other"])] =
        (valuesGet [("X-Token", ["other"])] "X-Token" == "[invalid(regex")) ∧
      regexpCompile "[invalid(regex" = none :=
  invalidPatternExactMatch "X-Token" "[invalid(regex"
    [("X-Token", ["[invalid(regex"])] [("X-Token", ["other"])] (by rfl)

/-- C4: a non-empty body pattern that does not compile as a regular
expression makes the body predicate fail for every request, whatever the
request body holds. -/
theorem invalidBodyPatternNoMatch (pat : String) (r : Request)
    (hne : pat ≠ "") (h : regexpCompile pat = none) :
    matchesBody pat r = false := by
  simp [matchesBody, hne, h]

theorem invalidBodyPatternNoMatch_witness :
    matchesBody "[invalid(regex"
      { method := "POST", path := "/b", headers := [], query := [],
        body := "[invalid(regex", cancelledDuringDelay := false } = false :=
  invalidBodyPatternNoMatch "[invalid(regex" _ (by decide) (by rfl)

/-- C8: an absent header or query parameter is looked up as the empty
string, and the pattern `".*"` compiles and matches every value, so a rule
entry with pattern `".*"` matches every request collection, including ones
lacking the name entirely. -/
theorem absentEmptyAndDotStarMatches :
    (∀ (hs : List (String × List String)) (name : String),
        hs.lookup (canonicalMIMEHeaderKey name) = none → headerGet hs name = "") ∧
      (∀ (vs : List (String × List String)) (name : String),
        vs.lookup name = none → valuesGet vs name = "") ∧
      (∀ re, regexpCompile ".*" = some re → ∀ v, re.matchString v = true) ∧
      (∀ (name : String) (hs : List (String × List String)),
        matchesHeaders [(name, ".*")] hs = true) ∧
      (∀ (name : String) (vs : List (String × List String)),
        matchesQueryParams [(name, ".*")] vs = true) := by
  have hcomp : regexpCompile ".*" = some (RE.seq (RE.star RE.dot) RE.eps) := by rfl
  refine ⟨?_, ?_, ?_, ?_, ?_⟩
  · intro hs name h
    simp [headerGet, h]
  · intro vs name h
    simp [valuesGet, h]
  · intro re hre v
    rw [hcomp] at hre
    injection hre with h2
    subst h2
    exact RE.matchString_of_nullable (RE.seq (RE.star RE.dot) RE.eps) rfl v
  · intro name hs
    have hm := RE.matchString_of_nullable (RE.seq (RE.star RE.dot) RE.eps) rfl
      (headerGet hs name)
    simp [matchesHeaders, hcomp, hm]
  · intro name vs
    have hm := RE.matchString_of_nullable (RE.seq (RE.star RE.dot) RE.eps) rfl
      (valuesGet vs name)
    simp [matchesQueryParams, hcomp, hm]

theorem absentEmptyAndDotStarMatches_witness :
    headerGet [] "X-Missing" = "" ∧ valuesGet [] "q" = "" ∧
      RE.matchString (RE.seq (RE.star RE.dot) RE.eps) "" = true ∧
      matchesHeaders [("Content-Type", ".*")] [] = true ∧
      matchesQueryParams [("page", ".*")] [] = true :=
  ⟨absentEmptyAndDotStarMatches.1 [] "X-Missing" rfl,
   absentEmptyAndDotStarMatches.2.1 [] "q" rfl,
   absentEmptyAndDotStarMatches.2.2.1 (RE.seq (RE.star RE.dot) RE.eps) rfl "",
   absentEmptyAndDotStarMatches.2.2.2.1 "Content-Type" [],
   absentEmptyAndDotStarMatches.2.2.2.2 "page" []⟩

/-- C9: when a rule carries a configured delay and the request's
cancellation signal fires during the delay wait, the handler abandons the
response without writing headers, status or body. -/
theorem writeResponseCancelledAbandoned (o : Nat → Nat) (r : Request)
    (rule : RequestRule) (d : ResponseDelay) (hd : rule.responseDelay = some d)
    (hc : r.cancelledDuringDelay = true) :
    writeResponse o r rule = Outcome.abandoned := by
  unfold writeResponse
  rw [hd]
  simp [calculateDelay_spec, hc]

theorem writeResponseCancelledAbandoned_witness :
    writeResponse (fun _ => 0) cancelledReq delayedRule = Outcome.abandoned :=
  writeResponseCancelledAbandoned (fun _ => 0) cancelledReq delayedRule
    { min := 100, max := 100 } rfl rfl

/-- C10 counterexample: the int64 pair min = -1, max = 2^63 - 1 has
max > min, yet `Max - Min + 1` computed in wrapping int64 arithmetic is
nonpositive, so `rand.Intn` panics — the calculator is not total. -/
theorem calculateDelayGoPanics :
    ((-1 : Int) < 9223372036854775807) ∧
      calculateDelayGo (fun _ => 0) { min := -1, max := 9223372036854775807 } = none :=
  ⟨by decide, by decide⟩

/-- C10 (amended): over int64-representable pairs, whenever max ≤ min the
calculator returns exactly min milliseconds without drawing from the
random source (the result is oracle-independent); it never panics as long
as max - min + 1 stays within int64; but for min < max with max - min + 1
overflowing int64, the wrapped `Intn` argument is nonpositive and the
calculator panics. -/
theorem calculateDelayGoTotal (o o2 : Nat → Nat) (d : ResponseDelay)
    (hmin : -9223372036854775808 ≤ d.min) (hmax : d.max ≤ 9223372036854775807) :
    (d.max ≤ d.min →
      calculateDelayGo o d = some d.min ∧
        calculateDelayGo o d = calculateDelayGo o2 d) ∧
      (d.max - d.min + 1 ≤ 9223372036854775807 →
        ∃ ms, calculateDelayGo o d = some ms) ∧
      (d.min < d.max → 9223372036854775808 ≤ d.max - d.min + 1 →
        calculateDelayGo o d = none) := by
  refine ⟨?_, ?_, ?_⟩
  · intro h
    have hn : ¬ d.max > d.min := by omega
    unfold calculateDelayGo
    rw [if_neg hn, if_neg hn]
    exact ⟨rfl, rfl⟩
  · intro hsmall
    unfold calculateDelayGo randIntn
    by_cases h : d.max > d.min
    · have e1 : int64Wrap (d.max - d.min) = d.max - d.min := by
        unfold int64Wrap
        omega
      rw [if_pos h, e1]
      have e2 : int64Wrap (d.max - d.min + 1) = d.max - d.min + 1 := by
        unfold int64Wrap
        omega
      rw [e2]
      have hn : ¬ (d.max - d.min + 1 ≤ 0) := by omega
      rw [if_neg hn]
      exact ⟨_, rfl⟩
    · rw [if_neg h]
      exact ⟨d.min, rfl⟩
  · intro hlt hbig
    have hneg : int64Wrap (int64Wrap (d.max - d.min) + 1) ≤ 0 := by
      unfold int64Wrap
      omega
    unfold calculateDelayGo randIntn
    rw [if_pos hlt, if_pos hneg]
    rfl

/-- C1 counterexample: for a request that no configured rule matches (path
`/unknown` against the `/ping` configuration), the dispatcher replies with
status 404 but the body is Go's fixed `http.NotFound` line, not empty. -/
theorem serveHTTPNoMatchBodyNonempty :
    serveHTTP (fun _ => 0) pingConfig reqUnknown = Outcome.wrote notFoundResponse 0 ∧
      notFoundResponse.statusCode = 404 ∧ notFoundResponse.body ≠ "" :=
  ⟨rfl, rfl, by decide⟩

/-- C1 (amended): whenever no configured rule satisfies all matching
conditions, the dispatcher emits Go's generic not-found response — status
404 with the fixed body `404 page not found` followed by a newline (not an
empty body). -/
theorem serveHTTPNoMatchNotFound (o : Nat → Nat) (cfg : Config) (r : Request)
    (h : findMatchingRule cfg.requests r = none) :
    serveHTTP o cfg r = Outcome.wrote notFoundResponse 0 ∧
      notFoundResponse.statusCode = 404 ∧
      notFoundResponse.body = "404 page not found\n" := by
  refine ⟨?_, rfl, rfl⟩
  unfold serveHTTP
  rw [h]

theorem serveHTTPNoMatchNotFound_witness :
    serveHTTP (fun _ => 1) pingConfig reqUnknown = Outcome.wrote notFoundResponse 0 ∧
      notFoundResponse.statusCode = 404 ∧
      notFoundResponse.body = "404 page not found\n" :=
  serveHTTPNoMatchNotFound (fun _ => 1) pingConfig reqUnknown rfl

/-- C2: the selector is first-match-wins — if the rule at position `i`
satisfies the request, it returns the rule at some position `j ≤ i` that
satisfies the request, and every rule before `j` fails it; in particular it
never returns a later satisfying rule. -/
theorem findMatchingRuleFirst (rules : List RequestRule) (r : Request) (i : Nat)
    (hi : i < rules.length) (hsat : ruleSatisfies (rules.get ⟨i, hi⟩) r = true) :
    ∃ j, ∃ hj : j < rules.length, j ≤ i ∧
      findMatchingRule rules r = some (rules.get ⟨j, hj⟩) ∧
      ruleSatisfies (rules.get ⟨j, hj⟩) r = true ∧
      ∀ k, ∀ hk : k < rules.length, k < j →
        ruleSatisfies (rules.get ⟨k, hk⟩) r = false := by
  induction rules generalizing i with
  | nil => exact absurd hi (by simp)
  | cons rule rest ih =>
    by_cases hr : ruleSatisfies rule r = true
    · refine ⟨0, by simp, Nat.zero_le i, ?_, by simpa using hr, ?_⟩
      · simp [findMatchingRule, hr]
      · intro k hk hk0
        omega
    · cases i with
      | zero => exact absurd hsat (by simpa using hr)
      | succ i' =>
        have hi' : i' < rest.length := by simpa using hi
        have hsat' : ruleSatisfies (rest.get ⟨i', hi'⟩) r = true := by simpa using hsat
        obtain ⟨j, hj, hji, hfind, hjs, hmin⟩ := ih i' hi' hsat'
        refine ⟨j + 1, by simpa using Nat.succ_lt_succ hj, Nat.succ_le_succ hji, ?_,
          by simpa using hjs, ?_⟩
        · simp [findMatchingRule, hr, hfind]
        · intro k hk hkj
          cases k with
          | zero => simpa using hr
          | succ k' =>
            have hk' : k' < rest.length := by simpa using hk
            simpa using hmin k' hk' (by omega)

theorem findMatchingRuleFirst_witness :
    ∃ j, ∃ hj : j < [dupRuleA, dupRuleB].length, j ≤ 1 ∧
      findMatchingRule [dupRuleA, dupRuleB] dupReq =
        some (List.get [dupRuleA, dupRuleB] ⟨j, hj⟩) ∧
      ruleSatisfies (List.get [dupRuleA, dupRuleB] ⟨j, hj⟩) dupReq = true ∧
      ∀ k, ∀ hk : k < [dupRuleA, dupRuleB].length, k < j →
        ruleSatisfies (List.get [dupRuleA, dupRuleB] ⟨k, hk⟩) dupReq = false :=
  findMatchingRuleFirst [dupRuleA, dupRuleB] dupReq 1 (by decide) (by rfl)

/-- C5: for every rule of a defaulted configuration, the selector's method
condition holds exactly when the rule's method and the request's method
are equal after both are upper-cased. -/
theorem methodConditionCaseInsensitive (cfg : Config) (rule : RequestRule) (r : Request)
    (hmem : rule ∈ cfg.setDefaults.requests) :
    methodCondition rule r =
      (stringsToUpper rule.method == stringsToUpper r.method) := by
  have hmem2 : rule ∈ List.map defaultRule cfg.requests := hmem
  obtain ⟨orig, _, hrule⟩ := List.mem_map.mp hmem2
  have hm : rule.method =
      stringsToUpper (if orig.method = "" then "GET" else orig.method) := by
    rw [← hrule]
    unfold defaultRule
    dsimp only
    split <;> rfl
  unfold methodCondition
  rw [hm, stringsToUpper_idem]

theorem methodConditionCaseInsensitive_witness :
    methodCondition (defaultRule lowerMethodRule) mixedCaseReq =
      (stringsToUpper (defaultRule lowerMethodRule).method ==
        stringsToUpper mixedCaseReq.method) :=
  methodConditionCaseInsensitive lowerMethodConfig (defaultRule lowerMethodRule)
    mixedCaseReq (List.mem_singleton.mpr rfl)

/-- C6: with a draw oracle that returns values below its argument and a
delay pair 0 ≤ min ≤ max, the calculator yields exactly min when min = max
and always a value inside [min, max]; a rule without a configured delay is
answered with delay 0, independently of the random source. -/
theorem calculateDelayRange (o : Nat → Nat) (d : ResponseDelay)
    (ho : ∀ n, 0 < n → o n < n) (h0 : 0 ≤ d.min) (h1 : d.min ≤ d.max) :
    (d.min = d.max → calculateDelay o d = some d.min) ∧
      (∃ ms, calculateDelay o d = some ms ∧ d.min ≤ ms ∧ ms ≤ d.max) ∧
      (∀ (o2 : Nat → Nat) (r : Request) (rule : RequestRule),
        rule.responseDelay = none →
          writeResponse o r rule = writeResponse o2 r rule ∧
          writeResponse o r rule = Outcome.wrote (mkResponse rule) 0) := by
  refine ⟨?_, ?_, ?_⟩
  · intro heq
    rw [calculateDelay_spec]
    have hlt : ¬ d.max > d.min := by omega
    simp [hlt]
  · rw [calculateDelay_spec]
    by_cases h : d.max > d.min
    · have hk : 0 < (d.max - d.min + 1).toNat := by omega
      have hb := ho _ hk
      refine ⟨_, rfl, ?_, ?_⟩ <;> simp [h] <;> omega
    · exact ⟨d.min, by simp [h], le_refl _, h1⟩
  · intro o2 r rule hrd
    unfold writeResponse
    rw [hrd]
    exact ⟨rfl, rfl⟩

theorem calculateDelayRange_witness :
    calculateDelay (fun n => n - 1) { min := 100, max := 100 } = some 100 ∧
      (∃ ms, calculateDelay (fun n => n - 1) { min := 50, max := 150 } = some ms ∧
        (50 : Int) ≤ ms ∧ ms ≤ 150) ∧
      writeResponse (fun n => n - 1) jsonReq structuredRule =
        writeResponse (fun _ => 3) jsonReq structuredRule ∧
      writeResponse (fun n => n - 1) jsonReq structuredRule =
        Outcome.wrote (mkResponse structuredRule) 0 := by
  have h50 := calculateDelayRange (fun n => n - 1) { min := 50, max := 150 }
    (fun n hn => by show n - 1 < n; omega) (by decide) (by decide)
  have h100 := calculateDelayRange (fun n => n - 1) { min := 100, max := 100 }
    (fun n hn => by show n - 1 < n; omega) (by decide) (by decide)
  have hnd := h50.2.2 (fun _ => 3) jsonReq structuredRule rfl
  exact ⟨h100.1 rfl, h50.2.1, hnd.1, hnd.2⟩

/-- C7: absent cancellation the synthesizer writes the matched rule's
response, whose body bytes are: a string value verbatim, a structured value
as its JSON serialization, nothing when the body is absent. -/
theorem writeResponseBodySerialization (o : Nat → Nat) (rule : RequestRule) (r : Request)
    (hr : r.cancelledDuringDelay = false) :
    ∃ ms, writeResponse o r rule = Outcome.wrote (mkResponse rule) ms ∧
      (mkResponse rule).body =
        (match rule.response.body with
          | none => ""
          | some (Json.str s) => s
          | some v => jsonMarshal v) := by
  have hbody : (mkResponse rule).body =
      (match rule.response.body with
        | none => ""
        | some (Json.str s) => s
        | some v => jsonMarshal v) := by
    have hproj : (mkResponse rule).body =
        (match rule.response.body with
          | none => ""
          | some b => writeBody b) := rfl
    rw [hproj]
    cases rule.response.body with
    | none => rfl
    | some b => cases b <;> rfl
  cases hrd : rule.responseDelay with
  | none =>
    refine ⟨0, ?_, hbody⟩
    unfold writeResponse
    rw [hrd]
  | some d =>
    refine ⟨if d.max > d.min then d.min + (o (d.max - d.min + 1).toNat : Nat) else d.min,
      ?_, hbody⟩
    unfold writeResponse
    rw [hrd]
    simp [calculateDelay_spec, hr]

theorem writeResponseBodySerialization_witness :
    (∃ ms, writeResponse (fun _ => 0) jsonReq structuredRule =
        Outcome.wrote (mkResponse structuredRule) ms ∧
      (mkResponse structuredRule).body =
        (match structuredRule.response.body with
          | none => ""
          | some (Json.str s) => s
          | some v => jsonMarshal v)) ∧
      (mkResponse structuredRule).body = "\x7b\"message\":\"ok\"\x7d" :=
  ⟨writeResponseBodySerialization (fun _ => 0) structuredRule jsonReq rfl, rfl⟩

theorem calculateDelayGoTotal_witness :
    (calculateDelayGo (fun _ => 0) { min := 5, max := 2 } = some 5 ∧
      calculateDelayGo (fun _ => 0) { min := 5, max := 2 } =
        calculateDelayGo (fun _ => 99) { min := 5, max := 2 }) ∧
      (∃ ms, calculateDelayGo (fun _ => 0) { min := 50, max := 150 } = some ms) ∧
      calculateDelayGo (fun _ => 0) { min := -1, max := 9223372036854775807 } = none := by
  refine ⟨?_, ?_, ?_⟩
  · exact (calculateDelayGoTotal (fun _ => 0) (fun _ => 99) { min := 5, max := 2 }
      (by decide) (by decide)).1 (by decide)
  · exact (calculateDelayGoTotal (fun _ => 0) (fun _ => 99) { min := 50, max := 150 }
      (by decide) (by decide)).2.1 (by decide)
  · exact (calculateDelayGoTotal (fun _ => 0) (fun _ => 99)
      { min := -1, max := 9223372036854775807 }
      (by decide) (by decide)).2.2 (by decide) (by decide)

end Mock
